import Mathlib

/-!
A shallow embedding of the vector-space indexing engine
(`src/vector-space-indexing-engine.py`, class `VectorSearchEngine`).

Modelling conventions:
* Python `dict`s (which preserve insertion order and have unique keys) are
  association lists `List (κ × β)`; `m[k] = v` is `setKey` (update in place
  when the key is present, append otherwise), `m.get(k, d)` / `m[k]` is
  `getKey?`, and `k in m` is `(getKey? m k).isSome`.
* `collections.Counter(tokens)` is a fold of `addToken`, which reproduces
  the dict insertion order (first occurrence order) of Counter.
* Python floats and `math.log` / `math.sqrt` are modelled by `ℝ`,
  `Real.log` and `Real.sqrt`.
* Python text is modelled on `String` / `List Char`; `str.lower` and
  `string.punctuation` are modelled on their ASCII behaviour.
* Dynamically typed text arguments are `PyText` (a string, or some
  non-string value); `raise ValueError(msg)` is `Except.error`
  (`add_documentE` additionally carries the engine state at raise time, so
  that partial mutation before an exception would be observable).
-/

namespace VSE

/-- Document identifiers: `Union[int, str]` in the source. -/
abbrev DocId := Nat ⊕ String

/-- Terms are normalized tokens. -/
abbrev Term := String

/-- `m.get(k)` on a Python dict modelled as an association list:
first entry with the given key. -/
def getKey? {α β : Type} [DecidableEq α] : List (α × β) → α → Option β
  | [], _ => none
  | p :: rest, k => if p.1 = k then some p.2 else getKey? rest k

/-- `m[k] = v` on a Python dict: replace in place if the key is present
(keeping its position), append otherwise (dict insertion order). -/
def setKey {α β : Type} [DecidableEq α] : List (α × β) → α → β → List (α × β)
  | [], k, v => [(k, v)]
  | p :: rest, k, v => if p.1 = k then (k, v) :: rest else p :: setKey rest k v

/-- The characters of Python `string.punctuation`. -/
def punctuationChars : List Char :=
  "!\"#$%&\x27()*+,-./:;<=>?@[\\]^_\x60\x7b|\x7d~".data

/-- The whitespace characters ASCII `str.split()` splits on. -/
def isPySpace (c : Char) : Bool :=
  [' ', '\t', '\n', '\r', Char.ofNat 11, Char.ofNat 12].contains c

/-- `text.split()` followed by dropping empty tokens, on a character list:
maximal runs of non-whitespace characters, in source order.  The second
argument accumulates the current token in reverse. -/
def splitTokens : List Char → List Char → List Term
  | [], [] => []
  | [], cur => [String.mk cur.reverse]
  | c :: cs, cur =>
    if isPySpace c then
      match cur with
      | [] => splitTokens cs []
      | _ => String.mk cur.reverse :: splitTokens cs []
    else splitTokens cs (c :: cur)

/-- `preprocess_text`: lowercase (ASCII), replace punctuation by spaces,
split on whitespace, drop empty tokens. -/
def preprocess_text (text : String) : List Term :=
  let lowered := text.data.map Char.toLower
  let depunct := lowered.map fun c => if punctuationChars.contains c then ' ' else c
  splitTokens depunct []

/-- One step of `collections.Counter`: count one token. -/
def addToken (m : List (Term × Nat)) (t : Term) : List (Term × Nat) :=
  setKey m t ((getKey? m t).getD 0 + 1)

/-- `collections.Counter(tokens)` as an insertion-ordered association list. -/
def counter (tokens : List Term) : List (Term × Nat) :=
  tokens.foldl addToken []

/-- `create_concordance`: token frequency map of a text. -/
def create_concordance (text : String) : List (Term × Nat) :=
  counter (preprocess_text text)

/-- The state of a `VectorSearchEngine` instance. -/
structure VectorSearchEngine where
  documents : List (DocId × String)
  index : List (DocId × List (Term × Nat))
  document_frequencies : List (Term × Nat)
  total_documents : Nat
  deriving DecidableEq

/-- `VectorSearchEngine.__init__`. -/
def init : VectorSearchEngine :=
  { documents := [], index := [], document_frequencies := [], total_documents := 0 }

/-- Reading the `defaultdict(int)` of document frequencies
(also `self.document_frequencies.get(term, 0)`). -/
def dfGet (m : List (Term × Nat)) (t : Term) : Nat :=
  (getKey? m t).getD 0

/-- `self.document_frequencies[word] += 1` on the `defaultdict(int)`. -/
def dfIncr (m : List (Term × Nat)) (t : Term) : List (Term × Nat) :=
  setKey m t (dfGet m t + 1)

/-- `add_document` on string input (the path after the type check):
store the text, build the concordance, bump every distinct term's document
frequency, store the concordance, recompute the total document count. -/
def add_document (e : VectorSearchEngine) (doc_id : DocId) (text : String) :
    VectorSearchEngine :=
  let documents := setKey e.documents doc_id text
  let concordance := create_concordance text
  let document_frequencies :=
    (concordance.map Prod.fst).foldl dfIncr e.document_frequencies
  { documents := documents
    index := setKey e.index doc_id concordance
    document_frequencies := document_frequencies
    total_documents := documents.length }

/-- A dynamically typed text argument: an actual string, or any
non-string Python value. -/
inductive PyText where
  | str (s : String)
  | nonStr
  deriving DecidableEq

/-- The single error kind the engine raises: `ValueError(msg)`. -/
inductive PyErr where
  | valueError (msg : String)
  deriving DecidableEq

/-- `add_document` with its dynamic type check.  The error carries the engine
state as it is when the exception leaves the method, so that a partial
mutation before the raise would be visible; the `isinstance` check is the
first statement, so the pre-state is returned unchanged. -/
def add_documentE (e : VectorSearchEngine) (doc_id : DocId) (text : PyText) :
    Except (PyErr × VectorSearchEngine) VectorSearchEngine :=
  match text with
  | .nonStr => .error (.valueError "Document text must be a string", e)
  | .str s => .ok (add_document e doc_id s)

/-- `calculate_tf_idf(term_freq, doc_length, doc_freq)` (reads
`self.total_documents`, passed here as the first argument).  Python would
raise on `math.log` of a nonpositive number; that argument is positive
whenever `total_documents > 0`, which holds in every state in which
`doc_freq > 0` can arise, so `Real.log` agrees with the source there. -/
noncomputable def calculate_tf_idf (total_documents term_freq doc_length doc_freq : Nat) : ℝ :=
  if doc_freq = 0 then 0
  else
    (if doc_length > 0 then (term_freq : ℝ) / (doc_length : ℝ) else 0) *
      (if doc_freq > 0 then Real.log ((total_documents : ℝ) / (doc_freq : ℝ)) else 0)

/-- `vector_magnitude`: Euclidean norm of the dict's values. -/
noncomputable def vector_magnitude (vector : List (Term × ℝ)) : ℝ :=
  Real.sqrt ((vector.map fun p => p.2 ^ 2).sum)

/-- `cosine_similarity`: sparse dot product over the keys of `vec1` that are
also keys of `vec2`, divided by the product of magnitudes; `0` if either
magnitude is `0`. -/
noncomputable def cosine_similarity (vec1 vec2 : List (Term × ℝ)) : ℝ :=
  let dot_product :=
    (vec1.map fun p =>
      if (getKey? vec2 p.1).isSome then p.2 * (getKey? vec2 p.1).getD 0 else 0).sum
  let mag1 := vector_magnitude vec1
  let mag2 := vector_magnitude vec2
  if mag1 = 0 ∨ mag2 = 0 then 0 else dot_product / (mag1 * mag2)

/-- `create_tfidf_vector`: weight every term of the concordance with the
current corpus statistics. -/
noncomputable def create_tfidf_vector (e : VectorSearchEngine)
    (concordance : List (Term × Nat)) : List (Term × ℝ) :=
  let doc_length := (concordance.map Prod.snd).sum
  concordance.map fun p =>
    (p.1, calculate_tf_idf e.total_documents p.2 doc_length (dfGet e.document_frequencies p.1))

/-- `text.strip()` on a character list (Python strips whitespace by default). -/
def pyStrip (cs : List Char) : List Char :=
  ((cs.dropWhile isPySpace).reverse.dropWhile isPySpace).reverse

/-- The query vector built inside `search`: plain normalized term frequency
over the query terms that occur in the corpus document-frequency map
(no IDF on the query side). -/
noncomputable def query_vector_of (e : VectorSearchEngine) (query : String) :
    List (Term × ℝ) :=
  let query_concordance := create_concordance query
  let total_query_terms := (query_concordance.map Prod.snd).sum
  (query_concordance.filter fun p =>
      (getKey? e.document_frequencies p.1).isSome).map
    fun p => (p.1, (p.2 : ℝ) / (total_query_terms : ℝ))

/-- The preview text of a result: first 100 characters of the stored text,
plus an ellipsis when the text is longer than 100 characters. -/
def preview_of (s : String) : String :=
  let preview := String.mk (s.data.take 100)
  if s.data.length > 100 then preview ++ "..." else preview

/-- A search result: `(score, doc_id, preview_text)`. -/
abbrev SearchResult := ℝ × DocId × String

/-- The comparison `results.sort(reverse=True, key=lambda x: x[0])` sorts by:
scores non-increasing. -/
noncomputable def scoreLe (a b : SearchResult) : Bool :=
  decide (b.1 ≤ a.1)

/-- `search(query, max_results)`: validate the query, short-circuit on an
empty index, build the query vector, score every indexed document by cosine
similarity of its TF-IDF vector against the query vector, keep the strictly
positive scores with a preview, sort by score descending, truncate. -/
noncomputable def search (e : VectorSearchEngine) (query : PyText)
    (max_results : Nat) : Except PyErr (List SearchResult) :=
  match query with
  | .nonStr => .error (.valueError "Query must be a non-empty string")
  | .str q =>
    if pyStrip q.data = [] then .error (.valueError "Query must be a non-empty string")
    else if e.documents = [] then .ok []
    else
      let query_vector := query_vector_of e q
      let results := e.index.filterMap fun pc =>
        let doc_vector := create_tfidf_vector e pc.2
        let similarity := cosine_similarity query_vector doc_vector
        if similarity > 0 then
          some (similarity, pc.1, preview_of ((getKey? e.documents pc.1).getD ""))
        else none
      .ok ((results.mergeSort scoreLe).take max_results)

/-- Round-half-to-even to an integer (the rounding Python's `round` uses). -/
def roundHalfEven (q : ℚ) : ℤ :=
  let f := Int.floor q
  let frac := q - (f : ℚ)
  if frac < 1 / 2 then f
  else if 1 / 2 < frac then f + 1
  else if f % 2 = 0 then f else f + 1

/-- `round(x, 2)`: round to 2 decimal places, half to even. -/
def round2 (q : ℚ) : ℚ :=
  (roundHalfEven (q * 100) : ℚ) / 100

/-- The record returned by `get_document_stats`. -/
structure DocStats where
  total_documents : Nat
  unique_terms : Nat
  avg_doc_length : ℚ
  deriving DecidableEq

/-- `get_document_stats`: zeroed statistics on an empty store; otherwise the
stored total, the size of the document-frequency map, and the mean number of
distinct terms per stored document rounded to 2 decimal places. -/
def get_document_stats (e : VectorSearchEngine) : DocStats :=
  if e.documents = [] then
    { total_documents := 0, unique_terms := 0, avg_doc_length := 0 }
  else
    let total_terms := (e.documents.map fun p => (create_concordance p.2).length).sum
    let avg_length := (total_terms : ℚ) / (e.documents.length : ℚ)
    { total_documents := e.total_documents
      unique_terms := e.document_frequencies.length
      avg_doc_length := round2 avg_length }

/-- Folding a batch of `add_document` calls over an engine. -/
def addAll (e : VectorSearchEngine) (ds : List (DocId × String)) :
    VectorSearchEngine :=
  ds.foldl (fun acc p => add_document acc p.1 p.2) e

/-- The engine obtained from a fresh instance by one `add_document` call
per entry of `ds`, in order. -/
def buildEngine (ds : List (DocId × String)) : VectorSearchEngine :=
  addAll init ds

/-- The engine after adding the text "cat" twice under the same id,
exercising the overwrite path of `add_document`. -/
def reinsertEngine : VectorSearchEngine :=
  add_document (add_document init (Sum.inl 1) "cat") (Sum.inl 1) "cat"

/-- A one-document example engine. -/
def oneDocEngine : VectorSearchEngine :=
  add_document init (Sum.inl 0) "cat"

/-- A two-document example engine. -/
def twoDocEngine : VectorSearchEngine :=
  buildEngine [(Sum.inl 0, "cat dog cat"), (Sum.inl 1, "dog bird")]

/-! ### Association list lemmas -/

theorem getKey?_setKey_self {α β : Type} [DecidableEq α] (m : List (α × β)) (k : α) (v : β) :
    getKey? (setKey m k v) k = some v := by
  induction m with
  | nil => simp [setKey, getKey?]
  | cons p rest ih =>
    by_cases h : p.1 = k
    · simp [setKey, h, getKey?]
    · simp [setKey, h, getKey?, ih]

theorem getKey?_setKey_ne {α β : Type} [DecidableEq α] (m : List (α × β)) (k k' : α) (v : β)
    (h : k' ≠ k) : getKey? (setKey m k v) k' = getKey? m k' := by
  induction m with
  | nil => simp [setKey, getKey?, if_neg (Ne.symm h)]
  | cons p rest ih =>
    by_cases hp : p.1 = k
    · have h1 : p.1 ≠ k' := by rw [hp]; exact Ne.symm h
      simp only [setKey, if_pos hp, getKey?, if_neg (Ne.symm h), if_neg h1]
    · simp only [setKey, if_neg hp, getKey?, ih]

theorem setKey_of_getKey?_none {α β : Type} [DecidableEq α] (m : List (α × β)) (k : α) (v : β)
    (h : getKey? m k = none) : setKey m k v = m ++ [(k, v)] := by
  induction m with
  | nil => simp [setKey]
  | cons p rest ih =>
    by_cases hp : p.1 = k
    · simp [getKey?, hp] at h
    · simp [getKey?, hp] at h
      simp [setKey, hp, ih h]

theorem map_fst_setKey {α β : Type} [DecidableEq α] (m : List (α × β)) (k : α) (v : β) :
    (setKey m k v).map Prod.fst
      = if (getKey? m k).isSome then m.map Prod.fst else m.map Prod.fst ++ [k] := by
  induction m with
  | nil => simp [setKey, getKey?]
  | cons p rest ih =>
    by_cases hp : p.1 = k
    · simp [setKey, hp, getKey?]
    · simp only [setKey, hp, if_false, getKey?, List.map_cons]
      rw [ih]
      by_cases hs : (getKey? rest k).isSome <;> simp [hs]

theorem getKey?_eq_none_iff {α β : Type} [DecidableEq α] (m : List (α × β)) (k : α) :
    getKey? m k = none ↔ k ∉ m.map Prod.fst := by
  induction m with
  | nil => simp [getKey?]
  | cons p rest ih =>
    by_cases hp : p.1 = k
    · simp [getKey?, hp]
    · simp only [getKey?, if_neg hp, List.map_cons, List.mem_cons, ih]
      constructor
      · rintro hn (h | h)
        · exact hp h.symm
        · exact hn h
      · exact fun hn hm => hn (Or.inr hm)

theorem getKey?_isSome_iff {α β : Type} [DecidableEq α] (m : List (α × β)) (k : α) :
    (getKey? m k).isSome ↔ k ∈ m.map Prod.fst := by
  induction m with
  | nil => simp [getKey?]
  | cons p rest ih =>
    by_cases hp : p.1 = k
    · simp [getKey?, hp]
    · simp only [getKey?, if_neg hp, List.map_cons, List.mem_cons, ih]
      constructor
      · exact Or.inr
      · rintro (h | h)
        · exact absurd h.symm hp
        · exact h

theorem mem_of_getKey?_eq_some {α β : Type} [DecidableEq α] {m : List (α × β)} {k : α} {v : β}
    (h : getKey? m k = some v) : (k, v) ∈ m := by
  induction m with
  | nil => simp [getKey?] at h
  | cons p rest ih =>
    by_cases hp : p.1 = k
    · simp only [getKey?, hp, if_true, Option.some.injEq] at h
      exact List.mem_cons.2 (Or.inl (Prod.ext_iff.2 ⟨hp.symm, h.symm⟩))
    · simp only [getKey?, hp, if_false] at h
      exact List.mem_cons_of_mem _ (ih h)

theorem getKey?_of_mem_nodup {α β : Type} [DecidableEq α] {m : List (α × β)} {k : α} {v : β}
    (hnd : (m.map Prod.fst).Nodup) (hmem : (k, v) ∈ m) : getKey? m k = some v := by
  induction m with
  | nil => simp at hmem
  | cons p rest ih =>
    simp only [List.map_cons, List.nodup_cons] at hnd
    rcases List.mem_cons.1 hmem with h | h
    · rw [← h]
      simp [getKey?]
    · have hk : p.1 ≠ k := by
        intro hq
        exact hnd.1 (hq ▸ (List.mem_map.2 ⟨(k, v), h, rfl⟩))
      simp [getKey?, hk, ih hnd.2 h]

theorem length_setKey {α β : Type} [DecidableEq α] (m : List (α × β)) (k : α) (v : β) :
    (setKey m k v).length
      = if (getKey? m k).isSome then m.length else m.length + 1 := by
  have := congrArg List.length (map_fst_setKey m k v)
  simp only [List.length_map] at this
  by_cases hs : (getKey? m k).isSome <;> simp_all

theorem nodup_map_fst_setKey {α β : Type} [DecidableEq α] {m : List (α × β)} (k : α) (v : β)
    (hnd : (m.map Prod.fst).Nodup) : ((setKey m k v).map Prod.fst).Nodup := by
  rw [map_fst_setKey]
  by_cases hs : (getKey? m k).isSome
  · simpa [hs]
  · have hk : k ∉ m.map Prod.fst := by
      rw [← getKey?_eq_none_iff]
      cases h : getKey? m k
      · rfl
      · simp [h] at hs
    simp [hs, List.nodup_append, hnd, hk]

/-! ### Counter lemmas -/

theorem dfGet_dfIncr (m : List (Term × Nat)) (u t : Term) :
    dfGet (dfIncr m u) t = dfGet m t + if t = u then 1 else 0 := by
  by_cases h : t = u
  · subst h
    simp [dfIncr, dfGet, getKey?_setKey_self]
  · simp [dfIncr, dfGet, getKey?_setKey_ne _ _ _ _ h, h]

theorem dfGet_foldl_dfIncr (ks : List Term) (m : List (Term × Nat)) (t : Term) :
    dfGet (ks.foldl dfIncr m) t = dfGet m t + ks.count t := by
  induction ks generalizing m with
  | nil => simp
  | cons k rest ih =>
    simp only [List.foldl_cons, ih, dfGet_dfIncr, List.count_cons]
    by_cases h : t = k
    · simp [h, Nat.add_assoc, Nat.add_comm]
    · simp [h, Ne.symm h]

theorem mem_map_fst_addToken (m : List (Term × Nat)) (u t : Term) :
    u ∈ (addToken m t).map Prod.fst ↔ u ∈ m.map Prod.fst ∨ u = t := by
  unfold addToken
  rw [map_fst_setKey]
  by_cases hs : (getKey? m t).isSome
  · have : t ∈ m.map Prod.fst := (getKey?_isSome_iff m t).1 hs
    simp only [hs, if_true]
    constructor
    · exact Or.inl
    · rintro (h | h)
      · exact h
      · exact h ▸ this
  · simp [hs]

theorem mem_map_fst_foldl_addToken (ts : List Term) (m : List (Term × Nat)) (u : Term) :
    u ∈ ((ts.foldl addToken m).map Prod.fst) ↔ u ∈ m.map Prod.fst ∨ u ∈ ts := by
  induction ts generalizing m with
  | nil => simp
  | cons t rest ih =>
    simp only [List.foldl_cons, ih, mem_map_fst_addToken, List.mem_cons]
    tauto

theorem mem_map_fst_counter (ts : List Term) (u : Term) :
    u ∈ (counter ts).map Prod.fst ↔ u ∈ ts := by
  unfold counter
  rw [mem_map_fst_foldl_addToken]
  simp

theorem getKey?_counter_isSome (ts : List Term) (u : Term) :
    (getKey? (counter ts) u).isSome ↔ u ∈ ts := by
  rw [getKey?_isSome_iff, mem_map_fst_counter]

theorem nodup_map_fst_foldl_addToken (ts : List Term) (m : List (Term × Nat))
    (hnd : (m.map Prod.fst).Nodup) : ((ts.foldl addToken m).map Prod.fst).Nodup := by
  induction ts generalizing m with
  | nil => exact hnd
  | cons t rest ih =>
    exact ih _ (nodup_map_fst_setKey _ _ hnd)

theorem nodup_map_fst_counter (ts : List Term) : ((counter ts).map Prod.fst).Nodup :=
  nodup_map_fst_foldl_addToken ts [] (by simp)

theorem toFinset_map_fst_counter (ts : List Term) :
    ((counter ts).map Prod.fst).toFinset = ts.toFinset := by
  ext u
  rw [List.mem_toFinset, List.mem_toFinset, mem_map_fst_counter]

theorem length_counter (ts : List Term) : (counter ts).length = ts.toFinset.card := by
  have h1 : (counter ts).length = ((counter ts).map Prod.fst).length := by simp
  rw [h1, ← List.toFinset_card_of_nodup (nodup_map_fst_counter ts),
    toFinset_map_fst_counter]

/-! ### Lemmas about add_document and batch insertion -/

theorem count_map_fst_counter (ts : List Term) (t : Term) :
    ((counter ts).map Prod.fst).count t = if t ∈ ts then 1 else 0 := by
  by_cases h : t ∈ ts
  · rw [if_pos h]
    exact List.count_eq_one_of_mem (nodup_map_fst_counter ts)
      ((mem_map_fst_counter ts t).2 h)
  · rw [if_neg h]
    exact List.count_eq_zero.2 fun hm => h ((mem_map_fst_counter ts t).1 hm)

theorem dfGet_add_document (e : VectorSearchEngine) (id : DocId) (s : String) (t : Term) :
    dfGet (add_document e id s).document_frequencies t
      = dfGet e.document_frequencies t + if t ∈ preprocess_text s then 1 else 0 := by
  show dfGet (((create_concordance s).map Prod.fst).foldl dfIncr e.document_frequencies) t = _
  rw [dfGet_foldl_dfIncr, create_concordance, count_map_fst_counter]

theorem dfGet_addAll (ds : List (DocId × String)) (e : VectorSearchEngine) (t : Term) :
    dfGet (addAll e ds).document_frequencies t
      = dfGet e.document_frequencies t
        + ds.countP fun p => decide (t ∈ preprocess_text p.2) := by
  induction ds generalizing e with
  | nil => simp [addAll]
  | cons p rest ih =>
    show dfGet (addAll (add_document e p.1 p.2) rest).document_frequencies t = _
    rw [ih, dfGet_add_document, List.countP_cons]
    by_cases h : t ∈ preprocess_text p.2
    · simp only [h, if_pos]
      simp only [decide_eq_true_eq, h, if_true]
      omega
    · simp [h]

theorem addAll_cons (e : VectorSearchEngine) (p : DocId × String)
    (rest : List (DocId × String)) :
    addAll e (p :: rest) = addAll (add_document e p.1 p.2) rest := rfl

theorem addAll_fresh (ds : List (DocId × String)) (e : VectorSearchEngine)
    (hnd : (ds.map Prod.fst).Nodup)
    (hdoc : ∀ id ∈ ds.map Prod.fst, getKey? e.documents id = none)
    (hidx : ∀ id ∈ ds.map Prod.fst, getKey? e.index id = none) :
    (addAll e ds).documents = e.documents ++ ds ∧
      (addAll e ds).index = e.index ++ ds.map fun p => (p.1, create_concordance p.2) := by
  induction ds generalizing e with
  | nil => simp [addAll]
  | cons p rest ih =>
    simp only [List.map_cons, List.nodup_cons] at hnd
    have hd0 : getKey? e.documents p.1 = none := hdoc p.1 (by simp)
    have hi0 : getKey? e.index p.1 = none := hidx p.1 (by simp)
    have hdocs : (add_document e p.1 p.2).documents = e.documents ++ [p] := by
      show setKey e.documents p.1 p.2 = _
      rw [setKey_of_getKey?_none _ _ _ hd0]
    have hidxs : (add_document e p.1 p.2).index
        = e.index ++ [(p.1, create_concordance p.2)] := by
      show setKey e.index p.1 (create_concordance p.2) = _
      rw [setKey_of_getKey?_none _ _ _ hi0]
    have hdoc' : ∀ id ∈ rest.map Prod.fst,
        getKey? (add_document e p.1 p.2).documents id = none := by
      intro id hid
      have hne : id ≠ p.1 := fun hq => hnd.1 (hq ▸ hid)
      show getKey? (setKey e.documents p.1 p.2) id = none
      rw [getKey?_setKey_ne _ _ _ _ hne]
      exact hdoc id (List.mem_cons_of_mem _ hid)
    have hidx' : ∀ id ∈ rest.map Prod.fst,
        getKey? (add_document e p.1 p.2).index id = none := by
      intro id hid
      have hne : id ≠ p.1 := fun hq => hnd.1 (hq ▸ hid)
      show getKey? (setKey e.index p.1 (create_concordance p.2)) id = none
      rw [getKey?_setKey_ne _ _ _ _ hne]
      exact hidx id (List.mem_cons_of_mem _ hid)
    obtain ⟨h1, h2⟩ := ih (add_document e p.1 p.2) hnd.2 hdoc' hidx'
    rw [addAll_cons]
    constructor
    · rw [h1, hdocs, List.append_assoc, List.singleton_append]
    · rw [h2, hidxs, List.append_assoc, List.singleton_append, List.map_cons]

theorem total_documents_addAll (ds : List (DocId × String)) (e : VectorSearchEngine)
    (h : e.total_documents = e.documents.length) :
    (addAll e ds).total_documents = (addAll e ds).documents.length := by
  induction ds generalizing e with
  | nil => exact h
  | cons p rest ih => exact ih _ rfl

theorem buildEngine_documents (ds : List (DocId × String))
    (hnd : (ds.map Prod.fst).Nodup) : (buildEngine ds).documents = ds := by
  have h := addAll_fresh ds init hnd (by intro id _; rfl) (by intro id _; rfl)
  simpa [init] using h.1

theorem buildEngine_index (ds : List (DocId × String))
    (hnd : (ds.map Prod.fst).Nodup) :
    (buildEngine ds).index = ds.map fun p => (p.1, create_concordance p.2) := by
  have h := addAll_fresh ds init hnd (by intro id _; rfl) (by intro id _; rfl)
  simpa [init] using h.2

theorem buildEngine_total (ds : List (DocId × String))
    (hnd : (ds.map Prod.fst).Nodup) :
    (buildEngine ds).total_documents = ds.length := by
  have h := total_documents_addAll ds init rfl
  rw [buildEngine, h]
  rw [show addAll init ds = buildEngine ds from rfl, buildEngine_documents ds hnd]

theorem dfGet_buildEngine (ds : List (DocId × String)) (t : Term) :
    dfGet (buildEngine ds).document_frequencies t
      = ds.countP fun p => decide (t ∈ preprocess_text p.2) := by
  rw [buildEngine, dfGet_addAll]
  simp [init, dfGet, getKey?]

/-! ### Claims about the index layer -/

/-- C1: the claimed document-frequency invariant ("for every reachable state,
including re-adding an existing id, the document frequency of a term equals
the number of stored documents whose term-frequency map contains it") fails
on the code: re-adding id 1 with the text "cat" leaves a document frequency
of 2 for "cat" while exactly one stored document contains it. -/
theorem C1_df_overcount_on_reinsert :
    dfGet reinsertEngine.document_frequencies "cat" = 2 ∧
      (reinsertEngine.index.countP fun pc => (getKey? pc.2 "cat").isSome) = 1 ∧
      reinsertEngine.total_documents = 1 := by
  refine ⟨?_, ?_, ?_⟩ <;> decide

/-- C4: after adding documents with pairwise-distinct ids to a fresh engine,
the document frequency of every term occurring in at least one of them is
between 1 and the number of documents, and equals the number of added
documents whose tokenized text contains the term. -/
theorem C4_document_frequency_monotonicity (ds : List (DocId × String))
    (_hnd : (ds.map Prod.fst).Nodup) (t : Term)
    (hocc : ∃ p ∈ ds, t ∈ preprocess_text p.2) :
    1 ≤ dfGet (buildEngine ds).document_frequencies t ∧
      dfGet (buildEngine ds).document_frequencies t ≤ ds.length ∧
      dfGet (buildEngine ds).document_frequencies t
        = ds.countP fun p => decide (t ∈ preprocess_text p.2) := by
  rw [dfGet_buildEngine]
  refine ⟨?_, List.countP_le_length _, rfl⟩
  obtain ⟨p, hp, ht⟩ := hocc
  have hpos : 0 < ds.countP fun p => decide (t ∈ preprocess_text p.2) :=
    List.countP_pos_iff.2 ⟨p, hp, by simpa using ht⟩
  omega

theorem C4_witness :
    (([((Sum.inl 0 : DocId), "cat dog"), (Sum.inl 1, "dog bird")].map Prod.fst).Nodup ∧
        ∃ p ∈ [((Sum.inl 0 : DocId), "cat dog"), (Sum.inl 1, "dog bird")],
          "dog" ∈ preprocess_text p.2) ∧
      1 ≤ dfGet (buildEngine [((Sum.inl 0 : DocId), "cat dog"),
            (Sum.inl 1, "dog bird")]).document_frequencies "dog" ∧
      dfGet (buildEngine [((Sum.inl 0 : DocId), "cat dog"),
            (Sum.inl 1, "dog bird")]).document_frequencies "dog" ≤ 2 ∧
      dfGet (buildEngine [((Sum.inl 0 : DocId), "cat dog"),
            (Sum.inl 1, "dog bird")]).document_frequencies "dog"
        = ([((Sum.inl 0 : DocId), "cat dog"), (Sum.inl 1, "dog bird")].countP
            fun p => decide ("dog" ∈ preprocess_text p.2)) :=
  ⟨⟨by decide, by decide⟩,
    C4_document_frequency_monotonicity _ (by decide) "dog" (by decide)⟩

/-- C7: `add_document` is atomic: on a non-string text it raises and leaves
the engine state untouched; on a string text it stores the text and the
concordance under the id, increments the document frequency of exactly the
distinct terms of the tokenized text, and recomputes the total document
count as the size of the store. -/
theorem C7_add_document_atomicity (e : VectorSearchEngine) (doc_id : DocId) (s : String) :
    add_documentE e doc_id PyText.nonStr
        = Except.error (PyErr.valueError "Document text must be a string", e) ∧
      add_documentE e doc_id (PyText.str s) = Except.ok (add_document e doc_id s) ∧
      getKey? (add_document e doc_id s).documents doc_id = some s ∧
      getKey? (add_document e doc_id s).index doc_id = some (create_concordance s) ∧
      (∀ t, dfGet (add_document e doc_id s).document_frequencies t
        = dfGet e.document_frequencies t + if t ∈ preprocess_text s then 1 else 0) ∧
      (add_document e doc_id s).total_documents = (add_document e doc_id s).documents.length :=
  ⟨rfl, rfl, getKey?_setKey_self _ _ _, getKey?_setKey_self _ _ _,
    dfGet_add_document e doc_id s, rfl⟩

/-- C3, counterexample: the claim quantifies over every query string, but on
the empty query `search` raises (even on an empty index) instead of
returning the empty list. -/
theorem C3_counterexample :
    search init (PyText.str "") 10
      = Except.error (PyErr.valueError "Query must be a non-empty string") := rfl

/-- C3, amended: on an engine with no documents, `search` returns the empty
list for every query that is non-empty after trimming. -/
theorem C3_empty_index_search (e : VectorSearchEngine) (q : String) (k : Nat)
    (hdocs : e.documents = []) (hq : pyStrip q.data ≠ []) :
    search e (PyText.str q) k = Except.ok [] := by
  simp only [search]
  rw [if_neg hq, if_pos hdocs]

theorem C3_witness :
    (init.documents = [] ∧ pyStrip "a".data ≠ []) ∧
      search init (PyText.str "a") 10 = Except.ok [] :=
  ⟨⟨rfl, by decide⟩, C3_empty_index_search init "a" 10 rfl (by decide)⟩

theorem vector_magnitude_nil : vector_magnitude [] = 0 := by
  simp [vector_magnitude, Real.sqrt_zero]

theorem cosine_similarity_nil_left (v : List (Term × ℝ)) :
    cosine_similarity [] v = 0 := by
  simp [cosine_similarity, vector_magnitude_nil]

/-- C10: a query that survives trimming but tokenizes to no terms (for
example, only punctuation) is safe: on any engine with documents, `search`
returns the empty list and no error; the query vector is empty, so the
normalization by the query-term total is never performed. -/
theorem C10_token_free_query (e : VectorSearchEngine) (q : String) (k : Nat)
    (hdocs : e.documents ≠ []) (hq : pyStrip q.data ≠ [])
    (htok : preprocess_text q = []) :
    search e (PyText.str q) k = Except.ok [] := by
  have hqv : query_vector_of e q = [] := by
    simp [query_vector_of, create_concordance, htok, counter]
  simp only [search]
  rw [if_neg hq, if_neg hdocs]
  have hres : (e.index.filterMap fun pc =>
      if cosine_similarity (query_vector_of e q) (create_tfidf_vector e pc.2) > 0 then
        some (cosine_similarity (query_vector_of e q) (create_tfidf_vector e pc.2), pc.1,
          preview_of ((getKey? e.documents pc.1).getD ""))
      else none) = [] := by
    rw [List.filterMap_eq_nil_iff]
    intro pc _
    rw [hqv, cosine_similarity_nil_left]
    simp
  rw [hres]
  simp

theorem C10_witness :
    (oneDocEngine.documents ≠ [] ∧ pyStrip "...".data ≠ [] ∧
        preprocess_text "..." = []) ∧
      search oneDocEngine (PyText.str "...") 5 = Except.ok [] :=
  ⟨⟨by decide, by decide, by decide⟩,
    C10_token_free_query oneDocEngine "..." 5 (by decide) (by decide) (by decide)⟩

/-! ### Claims about the TF-IDF weight and cosine similarity -/

/-- C6: the TF-IDF weight is 0 when the document frequency is 0; otherwise,
for doc_freq ≥ 1 and total documents ≥ 1, it is tf * ln(total_docs/doc_freq)
with tf = term_freq/doc_length when doc_length > 0 and tf = 0 when
doc_length = 0; in particular the weight is 0 when doc_freq equals the
total document count. -/
theorem C6_tf_idf_formula (total_docs term_freq doc_length doc_freq : Nat) :
    calculate_tf_idf total_docs term_freq doc_length 0 = 0 ∧
      (1 ≤ doc_freq → 1 ≤ total_docs →
        calculate_tf_idf total_docs term_freq doc_length doc_freq
          = (if 0 < doc_length then (term_freq : ℝ) / (doc_length : ℝ) else 0)
            * Real.log ((total_docs : ℝ) / (doc_freq : ℝ))) ∧
      (1 ≤ doc_freq → doc_freq = total_docs →
        calculate_tf_idf total_docs term_freq doc_length doc_freq = 0) := by
  refine ⟨by simp [calculate_tf_idf], ?_, ?_⟩
  · intro h1 _
    have h0 : doc_freq ≠ 0 := by omega
    simp [calculate_tf_idf, h0, Nat.pos_of_ne_zero h0]
  · intro h1 heq
    subst heq
    have h0 : doc_freq ≠ 0 := by omega
    have hc : (doc_freq : ℝ) ≠ 0 := Nat.cast_ne_zero.2 h0
    simp [calculate_tf_idf, h0, Nat.pos_of_ne_zero h0, div_self hc, Real.log_one]

theorem C6_witness :
    ((1 ≤ 3 ∧ (3 : Nat) = 3) ∧ calculate_tf_idf 3 2 4 3 = 0) :=
  ⟨⟨by omega, rfl⟩, (C6_tf_idf_formula 3 2 4 3).2.2 (by omega) rfl⟩

theorem sum_sq_nonneg (v : List (Term × ℝ)) : 0 ≤ (v.map fun p => p.2 ^ 2).sum := by
  apply List.sum_nonneg
  intro x hx
  obtain ⟨p, _, rfl⟩ := List.mem_map.1 hx
  positivity

theorem dot_self_eq (v : List (Term × ℝ)) (hnd : (v.map Prod.fst).Nodup) :
    (v.map fun p =>
        if (getKey? v p.1).isSome then p.2 * (getKey? v p.1).getD 0 else 0).sum
      = (v.map fun p => p.2 ^ 2).sum := by
  apply congrArg List.sum
  apply List.map_congr_left
  intro p hp
  rw [getKey?_of_mem_nodup hnd hp]
  simp [sq]

/-- C9: the self-similarity of a vector with nonzero magnitude is exactly 1,
and the similarity with a zero-magnitude vector is 0, whichever side it is
passed on. -/
theorem C9_self_and_zero_similarity (v w : List (Term × ℝ)) :
    ((v.map Prod.fst).Nodup → vector_magnitude v ≠ 0 → cosine_similarity v v = 1) ∧
      (vector_magnitude w = 0 →
        cosine_similarity v w = 0 ∧ cosine_similarity w v = 0) := by
  constructor
  · intro hnd hm
    have hS : (v.map fun p => p.2 ^ 2).sum = vector_magnitude v * vector_magnitude v := by
      rw [← Real.mul_self_sqrt (sum_sq_nonneg v)]
      rfl
    have hcond : ¬(vector_magnitude v = 0 ∨ vector_magnitude v = 0) := by tauto
    simp only [cosine_similarity, if_neg hcond]
    rw [dot_self_eq v hnd, hS, div_self (mul_ne_zero hm hm)]
  · intro hw
    constructor
    · simp [cosine_similarity, hw]
    · simp [cosine_similarity, hw]

theorem C9_witness :
    (((([(("a" : Term), (1 : ℝ))]).map Prod.fst).Nodup ∧
        vector_magnitude [(("a" : Term), (1 : ℝ))] ≠ 0 ∧
        vector_magnitude ([] : List (Term × ℝ)) = 0) ∧
      cosine_similarity [(("a" : Term), (1 : ℝ))] [(("a" : Term), (1 : ℝ))] = 1 ∧
      cosine_similarity [(("a" : Term), (1 : ℝ))] ([] : List (Term × ℝ)) = 0) := by
  have hm : vector_magnitude [(("a" : Term), (1 : ℝ))] = 1 := by
    simp [vector_magnitude]
  refine ⟨⟨by decide, ?_, vector_magnitude_nil⟩, ?_, ?_⟩
  · rw [hm]
    norm_num
  · exact (C9_self_and_zero_similarity [(("a" : Term), (1 : ℝ))]
      ([] : List (Term × ℝ))).1 (by decide) (by rw [hm]; norm_num)
  · exact ((C9_self_and_zero_similarity [(("a" : Term), (1 : ℝ))]
      ([] : List (Term × ℝ))).2 vector_magnitude_nil).1

/-! ### Cosine similarity is in [0, 1] on non-negative sparse vectors -/

/-- The value of a sparse vector at a term (0 off its support). -/
noncomputable def vecVal (v : List (Term × ℝ)) (t : Term) : ℝ :=
  (getKey? v t).getD 0

theorem sum_map_eq_finset_sum (v : List (Term × ℝ)) (g : Term → ℝ → ℝ)
    (hnd : (v.map Prod.fst).Nodup) :
    (v.map fun p => g p.1 p.2).sum
      = ∑ t in (v.map Prod.fst).toFinset, g t (vecVal v t) := by
  induction v with
  | nil => simp
  | cons p rest ih =>
    simp only [List.map_cons, List.nodup_cons] at hnd
    have hp : p.1 ∉ (rest.map Prod.fst).toFinset := by simpa using hnd.1
    simp only [List.map_cons, List.sum_cons, List.toFinset_cons]
    rw [Finset.sum_insert hp, ih hnd.2]
    congr 1
    · simp [vecVal, getKey?]
    · apply Finset.sum_congr rfl
      intro t ht
      have hne : p.1 ≠ t := fun h => hp (h ▸ ht)
      simp [vecVal, getKey?, hne]

theorem vecVal_eq_zero_of_not_mem (v : List (Term × ℝ)) (t : Term)
    (h : t ∉ (v.map Prod.fst).toFinset) : vecVal v t = 0 := by
  rw [vecVal, (getKey?_eq_none_iff v t).2 (by simpa using h)]
  rfl

theorem vecVal_nonneg (v : List (Term × ℝ)) (hv : ∀ p ∈ v, 0 ≤ p.2) (t : Term) :
    0 ≤ vecVal v t := by
  cases h : getKey? v t with
  | none => simp [vecVal, h]
  | some b =>
    have := hv _ (mem_of_getKey?_eq_some h)
    simpa [vecVal, h] using this

theorem vector_magnitude_sq (v : List (Term × ℝ)) (hnd : (v.map Prod.fst).Nodup) :
    vector_magnitude v ^ 2 = ∑ t in (v.map Prod.fst).toFinset, vecVal v t ^ 2 := by
  rw [vector_magnitude, Real.sq_sqrt (sum_sq_nonneg v),
    sum_map_eq_finset_sum v (fun _ a => a ^ 2) hnd]

theorem dot_eq_finset_sum (v1 v2 : List (Term × ℝ)) (hnd1 : (v1.map Prod.fst).Nodup) :
    (v1.map fun p =>
        if (getKey? v2 p.1).isSome then p.2 * (getKey? v2 p.1).getD 0 else 0).sum
      = ∑ t in (v1.map Prod.fst).toFinset, vecVal v1 t * vecVal v2 t := by
  have h1 : (v1.map fun p =>
        if (getKey? v2 p.1).isSome then p.2 * (getKey? v2 p.1).getD 0 else 0)
      = v1.map fun p => p.2 * vecVal v2 p.1 := by
    apply List.map_congr_left
    intro p _
    cases h : getKey? v2 p.1 with
    | none => simp [vecVal, h]
    | some b => simp [vecVal, h]
  rw [h1, sum_map_eq_finset_sum v1 (fun t a => a * vecVal v2 t) hnd1]

theorem cosine_similarity_mem_Icc (v1 v2 : List (Term × ℝ))
    (hnd1 : (v1.map Prod.fst).Nodup) (hnd2 : (v2.map Prod.fst).Nodup)
    (hv1 : ∀ p ∈ v1, 0 ≤ p.2) (hv2 : ∀ p ∈ v2, 0 ≤ p.2) :
    0 ≤ cosine_similarity v1 v2 ∧ cosine_similarity v1 v2 ≤ 1 := by
  by_cases hz : vector_magnitude v1 = 0 ∨ vector_magnitude v2 = 0
  · constructor <;> simp [cosine_similarity, hz]
  · push_neg at hz
    have hm1 : 0 ≤ vector_magnitude v1 := Real.sqrt_nonneg _
    have hm2 : 0 ≤ vector_magnitude v2 := Real.sqrt_nonneg _
    have hm1p : 0 < vector_magnitude v1 := lt_of_le_of_ne hm1 (Ne.symm hz.1)
    have hm2p : 0 < vector_magnitude v2 := lt_of_le_of_ne hm2 (Ne.symm hz.2)
    have hdot := dot_eq_finset_sum v1 v2 hnd1
    have hS1 := vector_magnitude_sq v1 hnd1
    have hS2 := vector_magnitude_sq v2 hnd2
    have hdotnn : 0 ≤ ∑ t in (v1.map Prod.fst).toFinset, vecVal v1 t * vecVal v2 t :=
      Finset.sum_nonneg fun t _ =>
        mul_nonneg (vecVal_nonneg v1 hv1 t) (vecVal_nonneg v2 hv2 t)
    have hstep1 : ∑ t in (v1.map Prod.fst).toFinset, vecVal v2 t ^ 2
        = ∑ t in (v1.map Prod.fst).toFinset ∩ (v2.map Prod.fst).toFinset,
            vecVal v2 t ^ 2 := by
      symm
      apply Finset.sum_subset Finset.inter_subset_left
      intro t ht htn
      have h2 : t ∉ (v2.map Prod.fst).toFinset := fun hm =>
        htn (Finset.mem_inter.2 ⟨ht, hm⟩)
      rw [vecVal_eq_zero_of_not_mem v2 t h2]
      ring
    have hstep2 : ∑ t in (v1.map Prod.fst).toFinset ∩ (v2.map Prod.fst).toFinset,
          vecVal v2 t ^ 2
        ≤ ∑ t in (v2.map Prod.fst).toFinset, vecVal v2 t ^ 2 :=
      Finset.sum_le_sum_of_subset_of_nonneg Finset.inter_subset_right
        fun t _ _ => sq_nonneg _
    have hCS : (∑ t in (v1.map Prod.fst).toFinset, vecVal v1 t * vecVal v2 t) ^ 2
        ≤ (vector_magnitude v1 * vector_magnitude v2) ^ 2 := by
      rw [mul_pow, hS1, hS2]
      calc (∑ t in (v1.map Prod.fst).toFinset, vecVal v1 t * vecVal v2 t) ^ 2
          ≤ (∑ t in (v1.map Prod.fst).toFinset, vecVal v1 t ^ 2)
              * ∑ t in (v1.map Prod.fst).toFinset, vecVal v2 t ^ 2 :=
            Finset.sum_mul_sq_le_sq_mul_sq _ _ _
        _ ≤ (∑ t in (v1.map Prod.fst).toFinset, vecVal v1 t ^ 2)
              * ∑ t in (v2.map Prod.fst).toFinset, vecVal v2 t ^ 2 := by
            apply mul_le_mul_of_nonneg_left (hstep1 ▸ hstep2)
              (Finset.sum_nonneg fun t _ => sq_nonneg _)
    have hdotle : (∑ t in (v1.map Prod.fst).toFinset, vecVal v1 t * vecVal v2 t)
        ≤ vector_magnitude v1 * vector_magnitude v2 := by
      calc (∑ t in (v1.map Prod.fst).toFinset, vecVal v1 t * vecVal v2 t)
          = Real.sqrt ((∑ t in (v1.map Prod.fst).toFinset,
              vecVal v1 t * vecVal v2 t) ^ 2) := (Real.sqrt_sq hdotnn).symm
        _ ≤ Real.sqrt ((vector_magnitude v1 * vector_magnitude v2) ^ 2) :=
            Real.sqrt_le_sqrt hCS
        _ = vector_magnitude v1 * vector_magnitude v2 :=
            Real.sqrt_sq (mul_nonneg hm1 hm2)
    have hcond : ¬(vector_magnitude v1 = 0 ∨ vector_magnitude v2 = 0) := by
      push_neg
      exact hz
    simp only [cosine_similarity, if_neg hcond]
    constructor
    · exact div_nonneg (hdot ▸ hdotnn) (mul_nonneg hm1 hm2)
    · rw [div_le_one (mul_pos hm1p hm2p), hdot]
      exact hdotle

theorem calculate_tf_idf_nonneg (total f len df : Nat) (h1 : 1 ≤ df) (h2 : df ≤ total) :
    0 ≤ calculate_tf_idf total f len df := by
  have h0 : df ≠ 0 := by omega
  rw [calculate_tf_idf, if_neg h0]
  apply mul_nonneg
  · split
    · positivity
    · exact le_refl 0
  · rw [if_pos (Nat.pos_of_ne_zero h0)]
    apply Real.log_nonneg
    rw [le_div_iff₀ (by exact_mod_cast Nat.pos_of_ne_zero h0 : (0 : ℝ) < (df : ℝ)), one_mul]
    exact_mod_cast h2

theorem query_vector_nonneg (e : VectorSearchEngine) (q : String) :
    ∀ p ∈ query_vector_of e q, 0 ≤ p.2 := by
  intro p hp
  simp only [query_vector_of] at hp
  obtain ⟨p0, _, rfl⟩ := List.mem_map.1 hp
  positivity

theorem nodup_map_fst_query_vector (e : VectorSearchEngine) (q : String) :
    ((query_vector_of e q).map Prod.fst).Nodup := by
  have h : ((query_vector_of e q).map Prod.fst)
      = ((create_concordance q).filter fun p =>
          (getKey? e.document_frequencies p.1).isSome).map Prod.fst := by
    simp [query_vector_of]
  rw [h]
  exact (nodup_map_fst_counter (preprocess_text q)).sublist
    ((List.filter_sublist _).map Prod.fst)

theorem map_fst_create_tfidf_vector (e : VectorSearchEngine)
    (c : List (Term × Nat)) :
    (create_tfidf_vector e c).map Prod.fst = c.map Prod.fst := by
  simp [create_tfidf_vector, List.map_map, Function.comp]

/-- C2, counterexample to the claim as stated: in a state reachable by
`add_document` calls (re-adding id 1 with text "cat"), the indexed
document's TF-IDF vector carries a strictly negative weight. -/
theorem C2_counterexample :
    getKey? reinsertEngine.index (Sum.inl 1) = some [("cat", 1)] ∧
      ∃ p ∈ create_tfidf_vector reinsertEngine [("cat", 1)], p.2 < 0 := by
  have h1 : reinsertEngine.total_documents = 1 := by decide
  have h2 : dfGet reinsertEngine.document_frequencies "cat" = 2 := by decide
  have hv : create_tfidf_vector reinsertEngine [("cat", 1)]
      = [("cat", calculate_tf_idf 1 1 1 2)] := by
    simp [create_tfidf_vector, h1, h2]
  have hw : calculate_tf_idf 1 1 1 2 = Real.log ((1 : ℝ) / 2) := by
    rw [calculate_tf_idf]
    norm_num
  refine ⟨by decide, ("cat", calculate_tf_idf 1 1 1 2), ?_, ?_⟩
  · rw [hv]
    exact List.mem_singleton.2 rfl
  · rw [hw]
    exact Real.log_neg (by norm_num) (by norm_num)

/-- C2, amended (the claim as stated fails on states reached by re-adding an
existing id; see the counterexample): for every engine built by
`add_document` calls with pairwise-distinct ids, every weight of the TF-IDF
vector of any indexed document is non-negative, and the cosine similarity
computed during search between the query vector of any query and that
document vector lies in [0, 1]. -/
theorem C2_nonneg_weights_and_bounded_similarity (ds : List (DocId × String))
    (hnd : (ds.map Prod.fst).Nodup) (pc : DocId × List (Term × Nat))
    (hpc : pc ∈ (buildEngine ds).index) (q : String) :
    (∀ p ∈ create_tfidf_vector (buildEngine ds) pc.2, 0 ≤ p.2) ∧
      0 ≤ cosine_similarity (query_vector_of (buildEngine ds) q)
            (create_tfidf_vector (buildEngine ds) pc.2) ∧
      cosine_similarity (query_vector_of (buildEngine ds) q)
          (create_tfidf_vector (buildEngine ds) pc.2) ≤ 1 := by
  rw [buildEngine_index ds hnd] at hpc
  obtain ⟨p0, hp0, hpc0⟩ := List.mem_map.1 hpc
  have hconc : pc.2 = create_concordance p0.2 := by rw [← hpc0]
  have hwts : ∀ p ∈ create_tfidf_vector (buildEngine ds) pc.2, 0 ≤ p.2 := by
    intro p hp
    simp only [create_tfidf_vector] at hp
    obtain ⟨p1, hp1, rfl⟩ := List.mem_map.1 hp
    have ht : p1.1 ∈ preprocess_text p0.2 := by
      rw [hconc] at hp1
      exact (mem_map_fst_counter _ _).1 (List.mem_map.2 ⟨p1, hp1, rfl⟩)
    have hdf : dfGet (buildEngine ds).document_frequencies p1.1
        = ds.countP fun p => decide (p1.1 ∈ preprocess_text p.2) :=
      dfGet_buildEngine ds p1.1
    have hge : 1 ≤ dfGet (buildEngine ds).document_frequencies p1.1 := by
      rw [hdf]
      have hpos : 0 < ds.countP fun p => decide (p1.1 ∈ preprocess_text p.2) :=
        List.countP_pos_iff.2 ⟨p0, hp0, decide_eq_true ht⟩
      omega
    have hle : dfGet (buildEngine ds).document_frequencies p1.1
        ≤ (buildEngine ds).total_documents := by
      rw [hdf, buildEngine_total ds hnd]
      exact List.countP_le_length _
    exact calculate_tf_idf_nonneg _ _ _ _ hge hle
  refine ⟨hwts, ?_⟩
  have hnd2 : ((create_tfidf_vector (buildEngine ds) pc.2).map Prod.fst).Nodup := by
    rw [map_fst_create_tfidf_vector, hconc]
    exact nodup_map_fst_counter _
  exact cosine_similarity_mem_Icc _ _ (nodup_map_fst_query_vector _ q) hnd2
    (query_vector_nonneg _ q) hwts

theorem C2_witness :
    ((([((Sum.inl 0 : DocId), "cat")].map Prod.fst).Nodup ∧
        ((Sum.inl 0 : DocId), create_concordance "cat")
          ∈ (buildEngine [((Sum.inl 0 : DocId), "cat")]).index) ∧
      0 ≤ cosine_similarity
            (query_vector_of (buildEngine [((Sum.inl 0 : DocId), "cat")]) "cat")
            (create_tfidf_vector (buildEngine [((Sum.inl 0 : DocId), "cat")])
              (create_concordance "cat")) ∧
        cosine_similarity
            (query_vector_of (buildEngine [((Sum.inl 0 : DocId), "cat")]) "cat")
            (create_tfidf_vector (buildEngine [((Sum.inl 0 : DocId), "cat")])
              (create_concordance "cat")) ≤ 1) :=
  ⟨⟨by decide, List.mem_singleton.2 rfl⟩,
    (C2_nonneg_weights_and_bounded_similarity [((Sum.inl 0 : DocId), "cat")]
      (by decide) ((Sum.inl 0 : DocId), create_concordance "cat")
      (List.mem_singleton.2 rfl) "cat").2⟩

/-! ### Claim about search ranking -/

theorem scoreLe_trans : ∀ a b c : SearchResult, scoreLe a b → scoreLe b c → scoreLe a c := by
  intro a b c hab hbc
  exact decide_eq_true (le_trans (of_decide_eq_true hbc) (of_decide_eq_true hab))

theorem scoreLe_total : ∀ a b : SearchResult, scoreLe a b || scoreLe b a := by
  intro a b
  simp only [scoreLe, Bool.or_eq_true, decide_eq_true_eq]
  exact le_total b.1 a.1

/-- C5: every result list returned by `search` is sorted by non-increasing
score, contains no entry with score ≤ 0, and has at most max_results
entries. -/
theorem C5_ranking_postcondition (e : VectorSearchEngine) (query : PyText) (k : Nat)
    (res : List SearchResult) (h : search e query k = Except.ok res) :
    res.Pairwise (fun a b => b.1 ≤ a.1) ∧ (∀ r ∈ res, 0 < r.1) ∧ res.length ≤ k := by
  cases query with
  | nonStr => exact absurd h (by simp [search])
  | str q =>
    simp only [search] at h
    by_cases hq : pyStrip q.data = []
    · rw [if_pos hq] at h
      exact absurd h (by simp)
    · rw [if_neg hq] at h
      by_cases hd : e.documents = []
      · rw [if_pos hd] at h
        have hres : ([] : List SearchResult) = res := Except.ok.inj h
        rw [← hres]
        simp
      · rw [if_neg hd] at h
        have hres := Except.ok.inj h
        subst hres
        refine ⟨?_, ?_, ?_⟩
        · have hs := List.sorted_mergeSort scoreLe_trans scoreLe_total
            (e.index.filterMap fun pc =>
              if cosine_similarity (query_vector_of e q) (create_tfidf_vector e pc.2) > 0 then
                some (cosine_similarity (query_vector_of e q) (create_tfidf_vector e pc.2),
                  pc.1, preview_of ((getKey? e.documents pc.1).getD ""))
              else none)
          exact ((hs.sublist (List.take_sublist _ _)).imp fun hab => of_decide_eq_true hab)
        · intro r hr
          have hr2 := (List.mem_mergeSort).1 (List.mem_of_mem_take hr)
          obtain ⟨pc, _, hf⟩ := List.mem_filterMap.1 hr2
          by_cases hsim : cosine_similarity (query_vector_of e q)
              (create_tfidf_vector e pc.2) > 0
          · rw [if_pos hsim] at hf
            obtain rfl := Option.some.inj hf
            exact hsim
          · rw [if_neg hsim] at hf
            exact absurd hf (by simp)
        · rw [List.length_take]
          exact min_le_left _ _

theorem C5_witness :
    search init (PyText.str "a") 10 = Except.ok [] ∧
      (([] : List SearchResult).Pairwise (fun a b => b.1 ≤ a.1) ∧
        (∀ r ∈ ([] : List SearchResult), 0 < r.1) ∧
        ([] : List SearchResult).length ≤ 10) :=
  ⟨rfl, C5_ranking_postcondition init (PyText.str "a") 10 [] rfl⟩

/-! ### Claim about statistics -/

/-- C8: `get_document_stats` returns zeroed statistics on an engine with no
documents; otherwise unique_terms is the size of the document-frequency map
and avg_doc_length is the mean, over the stored documents, of the number of
distinct terms of each document's tokenized text (not the raw token count),
rounded to 2 decimal places. -/
theorem C8_get_document_stats (e : VectorSearchEngine) :
    (e.documents = [] →
      get_document_stats e
        = { total_documents := 0, unique_terms := 0, avg_doc_length := 0 }) ∧
      (e.documents ≠ [] →
        (get_document_stats e).unique_terms = e.document_frequencies.length ∧
        (get_document_stats e).avg_doc_length
          = round2 ((((e.documents.map fun p =>
                (preprocess_text p.2).toFinset.card).sum : ℕ) : ℚ)
              / (e.documents.length : ℚ))) := by
  constructor
  · intro h
    simp [get_document_stats, h]
  · intro h
    simp only [get_document_stats, if_neg h]
    refine ⟨trivial, ?_⟩
    have hmap : (e.documents.map fun p => (create_concordance p.2).length)
        = e.documents.map fun p => (preprocess_text p.2).toFinset.card := by
      apply List.map_congr_left
      intro p _
      rw [create_concordance, length_counter]
    rw [hmap]

theorem C8_witness :
    (get_document_stats init
        = { total_documents := 0, unique_terms := 0, avg_doc_length := 0 }) ∧
      twoDocEngine.documents ≠ [] ∧
      (get_document_stats twoDocEngine).unique_terms
        = twoDocEngine.document_frequencies.length ∧
      (get_document_stats twoDocEngine).avg_doc_length
        = round2 ((((twoDocEngine.documents.map fun p =>
              (preprocess_text p.2).toFinset.card).sum : ℕ) : ℚ)
            / (twoDocEngine.documents.length : ℚ)) :=
  ⟨(C8_get_document_stats init).1 rfl, by decide,
    (C8_get_document_stats twoDocEngine).2 (by decide)⟩

end VSE
